import Mathlib

/-!
Verification development for the 321LX scale data recorder
(`src/321lx_data_logger_ver2.py`, class `BalanceLogger`).

Shallow embedding conventions:

* Python `str` values are modelled as `List Char` (for protocol text that is
  inspected character by character) or Lean `String` (for opaque labels).
  All protocol text reaching `process_data` comes from
  `raw_data.decode('ascii', errors='replace')`, so lines consist of ASCII
  characters plus the replacement character; on that alphabet Lean's
  `Char.isDigit`/`Char.toLower` agree with Python's `\d` and `str.lower`.
* Python `float` values are modelled as exact scaled decimals
  (`PyDecimal`: an integer numerator and a power-of-ten exponent, kept in
  the canonical form with no trailing decimal zeros).  Every float the
  program manipulates is produced by `float()` on a string matching
  `[+-]?\d+\.\d+`; such short decimals round-trip exactly through the
  binary double and its shortest `repr`, so the exact-decimal model is
  faithful for the values in scope, and `str(float)` is the minimal decimal
  rendering (`pyFloatStr`) while `f"{w:.3f}"` is `formatWeight3`.
* The mutable fields of `BalanceLogger` that the acquisition path touches
  (`self.data`, `self.sample_counter`, `self.device_name`) are gathered in
  the state record `St`; methods become functions from `St` to `St`.
-/

namespace Scale321LX

/-- Exact decimal number `num / 10 ^ exp`: the model of a Python `float`
whose value is a short decimal (see the header comment). -/
structure PyDecimal where
  num : Int
  exp : Nat
deriving DecidableEq, Repr

/-- Canonicalisation of a scaled decimal: divide out factors of ten while
the exponent lasts, so `⟨-1200, 3⟩` (from the literal `-1.200`) becomes
`⟨-12, 1⟩`.  Python's `float()` performs the same identification: `-1.200`
and `-1.2` are one value. -/
def stripTenFactors : Int → Nat → Int × Nat
  | n, 0 => (n, 0)
  | n, e + 1 => if n % 10 = 0 then stripTenFactors (n / 10) e else (n, e + 1)

/-- Build the canonical `PyDecimal` for `n / 10 ^ e`. -/
def mkPyDecimal (n : Int) (e : Nat) : PyDecimal :=
  let p := stripTenFactors n e
  ⟨p.1, p.2⟩

/-- Value of a `PyDecimal` as a rational number. -/
def PyDecimal.toRat (d : PyDecimal) : ℚ := (d.num : ℚ) / (10 : ℚ) ^ d.exp

/-- Character kept by the sanitisation `re.sub(r'[^\d\+-\.gk]', '', data)`
(line 397).  Inside the character class, `\+-\.` is a *range* from `'+'`
(0x2B) to `'.'` (0x2E) - it covers `'+'`, `','`, `'-'`, `'.'` - and `g`,
`k` are the lowercase letters only; `\d` is a decimal digit. -/
def keepChar (c : Char) : Bool :=
  c.isDigit || ('+' ≤ c && c ≤ '.') || c == 'g' || c == 'k'

/-- Line 397: `clean_data = re.sub(r'[^\d\+-\.gk]', '', data)` - deleting
every character the class does not match is filtering on `keepChar`. -/
def cleanData (line : List Char) : List Char := line.filter keepChar

/-- The sanitisation step as the specification words it: keep exactly
digits, `+`, `-`, `.` and (case-insensitively) `g`, `k`.  Stated for the
refinement comparison with `cleanData`; the two differ. -/
def specSanitize (line : List Char) : List Char :=
  line.filter fun c =>
    c.isDigit || c == '+' || c == '-' || c == '.' || c.toLower == 'g' || c.toLower == 'k'

/-- Attempt to match the regex `[+-]?\d+\.\d+` anchored at the head of the
list (the body of `re.search` at one candidate start position): optional
sign, a maximal nonempty digit run, a dot, a maximal nonempty digit run. -/
def matchDecimalAt (cs : List Char) : Option (List Char) :=
  let p := match cs with
    | c :: t => if c = '+' ∨ c = '-' then ([c], t) else (([] : List Char), cs)
    | [] => ([], [])
  let d1 := p.2.takeWhile Char.isDigit
  let r1 := p.2.dropWhile Char.isDigit
  if d1 = [] then none
  else
    match r1 with
    | '.' :: r2 =>
      let d2 := r2.takeWhile Char.isDigit
      if d2 = [] then none else some (p.1 ++ d1 ++ '.' :: d2)
    | _ => none

/-- Line 400: `re.search(r'([+-]?\d+\.\d+)', clean_data)` - try each start
position left to right and return the first (earliest) match. -/
def findDecimal : List Char → Option (List Char)
  | [] => none
  | c :: rest =>
    match matchDecimalAt (c :: rest) with
    | some m => some m
    | none => findDecimal rest

/-- Numeric value of a digit run (most significant first). -/
def digitsToNat (cs : List Char) : Nat :=
  cs.foldl (fun a c => 10 * a + (c.toNat - 48)) 0

/-- Line 403: `float(weight_match.group(1))` on a string of the shape
`[+-]?\d+\.\d+`, as the exact decimal it denotes (canonicalised, which is
precisely the identification `float` makes). -/
def parseFloat (cs : List Char) : PyDecimal :=
  let q := match cs with
    | '-' :: t => (true, t)
    | '+' :: t => (false, t)
    | _ => (false, cs)
  let ip := q.2.takeWhile Char.isDigit
  let rest := q.2.dropWhile Char.isDigit
  let fp := match rest with
    | _ :: t => t
    | [] => []
  let mag : Int := (digitsToNat ip * 10 ^ fp.length + digitsToNat fp : Nat)
  mkPyDecimal (if q.1 then -mag else mag) fp.length

/-- Does `hay` contain `needle` as a contiguous substring (Python's
`needle in hay`)? -/
def startsWithL : List Char → List Char → Bool
  | _, [] => true
  | [], _ :: _ => false
  | c :: cs, n :: ns => c == n && startsWithL cs ns

/-- Substring containment, scanning start positions left to right. -/
def hasSub (hay needle : List Char) : Bool :=
  match hay with
  | [] => needle.isEmpty
  | _ :: rest => startsWithL hay needle || hasSub rest needle

/-- Lines 395-404, the pure reading-extraction part of `process_data`:
sanitise, give up on an empty result, search for a decimal, parse it and
classify the unit (`'g' if 'g' in clean_data.lower() else 'kg' if 'kg' in
clean_data.lower() else '?'`).  `none` is the "no reading" outcome (the
early `return`s).  Unit strings follow the source: `"g"` is grams, `"kg"`
kilograms, `"?"` unknown. -/
def extractReading (line : List Char) : Option (PyDecimal × String) :=
  let clean := cleanData line
  if clean = [] then none
  else
    match findDecimal clean with
    | none => none
    | some m =>
      let lower := clean.map Char.toLower
      let unit := if hasSub lower ['g'] then "g"
        else if hasSub lower ['k', 'g'] then "kg"
        else "?"
      some (parseFloat m, unit)

/-- Sanity check of the sanitisation model on a line exercising every
character kind: ',' survives (the accidental range), 'a', ' ', 'G' and 'K'
are stripped, the rest is preserved in order. -/
theorem sanity_cleanData :
    cleanData (String.toList ",aG1.5 Kg") = String.toList ",1.5g" ∧
      cleanData (String.toList "ERROR") = [] := by
  decide

/-- Sanity check of extraction on the spec's other test vector:
`"+012.345 g ST"` yields `12.345` grams. -/
theorem sanity_extract_grams :
    extractReading (String.toList "+012.345 g ST") = some (⟨12345, 3⟩, "g") := by
  decide

/-- One row of `self.data` (lines 411-418): the dict
`{sample_name, weight, unit, device, comments, iid}`.  `iid` is the
Treeview item identifier returned by `self.tree.insert` - the opaque key
by which `on_treeview_double_click` addresses a row. -/
structure Meas where
  sample_name : String
  weight : PyDecimal
  unit : String
  device : String
  comments : String
  iid : String
deriving DecidableEq, Repr

/-- The acquisition-relevant mutable state of `BalanceLogger`:
`self.data`, `self.sample_counter` (initialised to 1) and
`self.device_name`. -/
structure St where
  data : List Meas
  sample_counter : Nat
  device_name : String
deriving DecidableEq, Repr

/-- Lines 395-423, `process_data` as a state transformer.  `preset` is
`self.presets_combo.get()` and `iid` the fresh Treeview id produced by
`self.tree.insert` - both inputs from collaborators outside the core.  On
"no reading" the state is returned untouched (the early `return`s fire
before any mutation); otherwise one row is appended:
`sample_name = f"Sample_{self.sample_counter}"`, the counter is
incremented, `device = self.presets_combo.get() or self.device_name.get()
or "Unknown"` (Python `or`: the first non-empty string), `comments` empty,
and `self.device_name` is set to the chosen device. -/
def processData (preset iid : String) (line : List Char) (st : St) : St :=
  match extractReading line with
  | none => st
  | some (w, u) =>
    let sampleName := "Sample_" ++ toString st.sample_counter
    let device := if preset ≠ "" then preset
      else if st.device_name ≠ "" then st.device_name else "Unknown"
    { data := st.data ++ [⟨sampleName, w, u, device, "", iid⟩],
      sample_counter := st.sample_counter + 1,
      device_name := device }

/-- Lines 256-265, the body of `reset_data` once the user confirms:
`self.data.clear()`, `self.sample_counter = 1`,
`self.device_name.set("")`. -/
def resetData (_st : St) : St := ⟨[], 1, ""⟩

/-- One processed line as the read loop sees it: the preset label and tree
id in effect, and the line text. -/
structure LineInput where
  preset : String
  iid : String
  text : List Char

/-- Run a sequence of lines through `process_data`, recording the
`sample_counter` value consumed by each line that is accepted (the
identity embedded in its `sample_name`). -/
def runAppends : St → List LineInput → St × List Nat
  | st, [] => (st, [])
  | st, l :: ls =>
    let ids := if (extractReading l.text).isSome then [st.sample_counter] else []
    let p := runAppends (processData l.preset l.iid l.text st) ls
    (p.1, ids ++ p.2)

/-- Number of lines in a batch that carry a reading. -/
def acceptedCount (ls : List LineInput) : Nat :=
  (ls.filter fun l => (extractReading l.text).isSome).length

/-- The two editable columns of `on_treeview_double_click`
(`col_idx in [0, 4]`): Sample Name and Comments. -/
inductive EditField where
  | sampleName
  | commentsField
deriving DecidableEq, Repr

/-- The single-field mutation performed inside `save_edit`
(lines 444-450). -/
def setField (f : EditField) (v : String) (m : Meas) : Meas :=
  match f with
  | .sampleName => { m with sample_name := v }
  | .commentsField => { m with comments := v }

/-- Lines 444-450: walk `self.data`, update the first row whose `iid`
equals the addressed row id, `break`; rows before and after, and the list
itself when no row matches, are untouched. -/
def updateByKey (data : List Meas) (key : String) (f : EditField) (v : String) :
    List Meas :=
  match data with
  | [] => []
  | m :: rest =>
    if m.iid = key then setField f v m :: rest
    else m :: updateByKey rest key f v

/-! ## Checkpoint store (`save_temp_data` / `load_temp_data`) -/

/-- The JSON documents the checkpoint file can hold.  Python's `json`
module round-trips strings, ints and (short-decimal) floats exactly -
`json.dump` writes a float via `repr` and `json.load` parses it back to
the identical double - so serialisation to text and back is the identity
on this value type and is elided. -/
inductive Json where
  | jstr (s : String)
  | jint (n : Int)
  | jfloat (d : PyDecimal)
  | jarr (xs : List Json)
  | jobj (fields : List (String × Json))

/-- Dictionary lookup on a JSON object's field list. -/
def jlookup (fields : List (String × Json)) (k : String) : Option Json :=
  match fields with
  | [] => none
  | (k', v) :: rest => if k' = k then some v else jlookup rest k

/-- One `self.data` row as `json.dump` writes it (a dict of strings and
one float). -/
def encodeMeas (m : Meas) : Json :=
  .jobj [("sample_name", .jstr m.sample_name), ("weight", .jfloat m.weight),
    ("unit", .jstr m.unit), ("device", .jstr m.device),
    ("comments", .jstr m.comments), ("iid", .jstr m.iid)]

/-- Lines 78-87, `save_temp_data`: dump
`{"data": self.data, "sample_counter": ..., "device_name": ...}`. -/
def saveTempData (st : St) : Json :=
  .jobj [("data", .jarr (st.data.map encodeMeas)),
    ("sample_counter", .jint st.sample_counter),
    ("device_name", .jstr st.device_name)]

/-- Read a string back out of a checkpoint value. -/
def decodeStr : Json → Option String
  | .jstr s => some s
  | _ => none

/-- Read a nonnegative integer back out of a checkpoint value (the
counter is a Python int that is always ≥ 1). -/
def decodeCounter : Json → Option Nat
  | .jint n => if n < 0 then none else some n.toNat
  | _ => none

/-- Read one measurement row back: the field accesses the program performs
on a restored row (`row["sample_name"]`, `row['weight']`, `row["unit"]`,
`row.get("device", "")`, `row["comments"]`, `item["iid"]`). -/
def decodeMeas : Json → Option Meas
  | .jobj fs => do
    let sn ← (jlookup fs "sample_name").bind decodeStr
    let w ← match jlookup fs "weight" with
      | some (.jfloat d) => some d
      | _ => none
    let u ← (jlookup fs "unit").bind decodeStr
    let dev ← (jlookup fs "device").bind decodeStr
    let cm ← (jlookup fs "comments").bind decodeStr
    let iid ← (jlookup fs "iid").bind decodeStr
    pure ⟨sn, w, u, dev, cm, iid⟩
  | _ => none

/-- Decode a list of restored rows, failing if any row does. -/
def decodeMeasList : List Json → Option (List Meas)
  | [] => some []
  | j :: rest => do
    let m ← decodeMeas j
    let t ← decodeMeasList rest
    pure (m :: t)

/-- Decode the restored row list. -/
def decodeMeasArr : Json → Option (List Meas)
  | .jarr xs => decodeMeasList xs
  | _ => none

/-- Lines 89-103, the restore branch of `load_temp_data`:
`temp.get("data", [])`, `temp.get("sample_counter", 1)`,
`temp.get("device_name", "")`.  `none` models the exception path
("Failed to load temp data") on a document of the wrong shape. -/
def loadTempData (j : Json) : Option St :=
  match j with
  | .jobj fs => do
    let d ← decodeMeasArr ((jlookup fs "data").getD (.jarr []))
    let c ← decodeCounter ((jlookup fs "sample_counter").getD (.jint 1))
    let dn ← decodeStr ((jlookup fs "device_name").getD (.jstr ""))
    pure ⟨d, c, dn⟩
  | _ => none

/-! ## Export (`save_data`) and weight rendering -/

/-- Left-pad a digit run with zeros to a given width. -/
def padLeftZeros (k : Nat) (s : List Char) : List Char :=
  List.replicate (k - s.length) '0' ++ s

/-- Python `str()` on a float holding a short decimal value: the shortest
decimal rendering, with at least one fractional digit (`str(-1.2)` is
`"-1.2"`, `str(12.0)` is `"12.0"`).  This is what `csv.writer` writes for
the non-string cell `row["weight"]` in `save_data` (line 469). -/
def pyFloatStr (d : PyDecimal) : String :=
  let sign := if d.num < 0 then "-" else ""
  let a := d.num.natAbs
  if d.exp = 0 then sign ++ toString a ++ ".0"
  else sign ++ toString (a / 10 ^ d.exp) ++ "." ++
    String.mk (padLeftZeros d.exp (toString (a % 10 ^ d.exp)).toList)

/-- Round-half-to-even integer division (`d > 0`), the rounding of
Python's fixed-point formatting. -/
def roundHalfEvenDiv (n d : Int) : Int :=
  let q := Int.fdiv n d
  let r := n - q * d
  if 2 * r < d then q else if d < 2 * r then q + 1
  else if q % 2 = 0 then q else q + 1

/-- The three-decimal rendering `f"{weight:.3f}"` used for the on-screen
table and the live readout (lines 273, 280, 409, 420). -/
def formatWeight3 (w : PyDecimal) : String :=
  let n3 : Int := if w.exp ≤ 3 then w.num * 10 ^ (3 - w.exp)
    else roundHalfEvenDiv w.num (10 ^ (w.exp - 3))
  let sign := if w.num < 0 then "-" else ""
  let a := n3.natAbs
  sign ++ toString (a / 1000) ++ "." ++
    String.mk (padLeftZeros 3 (toString (a % 1000)).toList)

/-- Lines 466-473: the cells `csv.writer` renders for one measurement -
`row["weight"]` is passed as the float itself, so the writer stringifies
it with `str`, not with the `:.3f` format the table uses. -/
def exportRow (m : Meas) : List String :=
  [m.sample_name, pyFloatStr m.weight, m.unit, m.device, m.comments]

/-- The data rows of the export, one per measurement in list order
(the `for row in self.data` loop). -/
def exportRows : List Meas → List (List String)
  | [] => []
  | m :: rest => exportRow m :: exportRows rest

/-- Lines 456-473, `save_data`: nothing is written when `self.data` is
empty (the early return); otherwise the appended block is a timestamp row,
a header row, then one row per measurement. -/
def saveData (exportTime : String) (data : List Meas) :
    Option (List (List String)) :=
  if data.isEmpty then none
  else some (["Exported: " ++ exportTime] ::
    ["Sample Name", "Weight", "Units", "Device", "Comments"] ::
    exportRows data)

/-- Sanity check of the two float renderings against CPython:
`str(-1.2) == "-1.2"`, `f"{-1.2:.3f}" == "-1.200"`, `str(12.345) ==
"12.345"`, `f"{5.0:.3f}" == "5.000"`, `str(5.0) == "5.0"`. -/
theorem sanity_float_render :
    pyFloatStr ⟨-12, 1⟩ = "-1.2" ∧ formatWeight3 ⟨-12, 1⟩ = "-1.200" ∧
      pyFloatStr ⟨12345, 3⟩ = "12.345" ∧ formatWeight3 ⟨5, 0⟩ = "5.000" ∧
      pyFloatStr ⟨5, 0⟩ = "5.0" := by
  decide

/-! ## Frame reassembler (`read_serial` lines 355-367 / `read_tcp`
lines 375-387) -/

/-- `buffer.split('\r\n', 1)`: cut the buffer at the first occurrence of
the two-character delimiter, returning the prefix before it and the
remainder after it; `none` when the delimiter does not occur (the `while
'\r\n' in buffer` guard is false). -/
def splitCRLF : List Char → Option (List Char × List Char)
  | [] => none
  | c :: rest =>
    if c = '\r' ∧ rest.head? = some '\n' then some ([], rest.tail)
    else (splitCRLF rest).map fun p => (c :: p.1, p.2)

theorem splitCRLF_length {buf l r : List Char}
    (h : splitCRLF buf = some (l, r)) : r.length + 2 ≤ buf.length := by
  induction buf generalizing l r with
  | nil => simp [splitCRLF] at h
  | cons c rest ih =>
    rw [splitCRLF] at h
    by_cases hc : c = '\r' ∧ rest.head? = some '\n'
    · rw [if_pos hc] at h
      obtain ⟨-, rfl⟩ := Prod.mk.injEq .. ▸ Option.some.injEq .. ▸ h
      cases rest with
      | nil => simp at hc
      | cons b t => simp_all
    · rw [if_neg hc] at h
      cases hsp : splitCRLF rest with
      | none => simp [hsp] at h
      | some p =>
        simp only [hsp, Option.map_some] at h
        obtain ⟨h1, rfl⟩ := Prod.mk.injEq .. ▸ Option.some.injEq .. ▸ h
        have := @ih p.1 p.2 (by simp [hsp])
        simpa using Nat.le_succ_of_le this

/-- The `while '\r\n' in buffer:` loop of the read loops: repeatedly split
off the prefix before the first delimiter, collecting the lines in arrival
order; the returned buffer is what remains after the last complete
delimiter. -/
def drainBuffer (buf : List Char) : List (List Char) × List Char :=
  match h : splitCRLF buf with
  | none => ([], buf)
  | some p =>
    let q := drainBuffer p.2
    (p.1 :: q.1, q.2)
termination_by buf.length
decreasing_by
  have := splitCRLF_length h
  omega

/-- `raw_data.decode('ascii', errors='replace')` on one byte: bytes up to
0x7F decode to themselves, anything else becomes U+FFFD. -/
def decodeByte (b : Nat) : Char :=
  if b < 128 then Char.ofNat b else Char.ofNat 0xFFFD

/-- Decode one received chunk of bytes. -/
def decodeChunk (bs : List Nat) : List Char := bs.map decodeByte

/-- One iteration of the read loop on an already-decoded chunk: append to
the buffer, drain complete lines, carry the rest. -/
def feedChunk (acc : List (List Char) × List Char) (chunk : List Char) :
    List (List Char) × List Char :=
  let p := drainBuffer (acc.2 ++ chunk)
  (acc.1 ++ p.1, p.2)

/-- The read loop over a whole session: start with an empty buffer
(`buffer = ""`), feed each received byte chunk in order. -/
def feedBytes (chunks : List (List Nat)) : List (List Char) × List Char :=
  (chunks.map decodeChunk).foldl feedChunk ([], [])

/-- Sanity check of draining: two complete lines come out, the trailing
partial line stays buffered. -/
theorem sanity_drainBuffer :
    drainBuffer (String.toList "ab\r\ncd\r\nef") =
      ([String.toList "ab", String.toList "cd"], String.toList "ef") := by
  simp [drainBuffer, splitCRLF]

theorem drainBuffer_of_none {buf : List Char} (h : splitCRLF buf = none) :
    drainBuffer buf = ([], buf) := by
  rw [drainBuffer]
  split
  next => rfl
  next q hq => rw [h] at hq; cases hq

theorem drainBuffer_of_some {buf : List Char} {p : List Char × List Char}
    (h : splitCRLF buf = some p) :
    drainBuffer buf = (p.1 :: (drainBuffer p.2).1, (drainBuffer p.2).2) := by
  rw [drainBuffer]
  split
  next hq => rw [h] at hq; cases hq
  next q hq => rw [h] at hq; cases hq; rfl

/-- Splitting at the first delimiter is stable under appending more text:
the first delimiter of `x ++ y` is the first delimiter of `x` when `x` has
one. -/
theorem splitCRLF_append {x y a b : List Char}
    (h : splitCRLF x = some (a, b)) :
    splitCRLF (x ++ y) = some (a, b ++ y) := by
  induction x generalizing a b with
  | nil => simp [splitCRLF] at h
  | cons c rest ih =>
    rw [splitCRLF] at h
    by_cases hc : c = '\r' ∧ rest.head? = some '\n'
    · rw [if_pos hc] at h
      obtain ⟨rfl, rfl⟩ := Prod.mk.injEq .. ▸ Option.some.injEq .. ▸ h
      cases rest with
      | nil => simp at hc
      | cons d t =>
        obtain ⟨rfl, hd⟩ := hc
        have hdn : d = '\n' := by simpa using hd
        subst hdn
        simp [splitCRLF]
    · rw [if_neg hc] at h
      cases hsp : splitCRLF rest with
      | none => simp [hsp] at h
      | some p =>
        simp only [hsp, Option.map_some] at h
        obtain ⟨h1, rfl⟩ := Prod.mk.injEq .. ▸ Option.some.injEq .. ▸ h
        cases rest with
        | nil => simp [splitCRLF] at hsp
        | cons d t =>
          have hc' : ¬(c = '\r' ∧ ((d :: t) ++ y).head? = some '\n') := by
            simpa using hc
          rw [List.cons_append, splitCRLF, if_neg hc',
            @ih p.1 p.2 (by simp [hsp])]
          simp [← h1]

theorem splitCRLF_length_pair {buf : List Char} {p : List Char × List Char}
    (h : splitCRLF buf = some p) : p.2.length + 2 ≤ buf.length := by
  obtain ⟨l, r⟩ := p
  exact splitCRLF_length h

theorem splitCRLF_append_pair {x y : List Char} {p : List Char × List Char}
    (h : splitCRLF x = some p) : splitCRLF (x ++ y) = some (p.1, p.2 ++ y) := by
  obtain ⟨l, r⟩ := p
  exact splitCRLF_append h

/-- The residual buffer after draining carries no complete delimiter
(fuel-bounded form). -/
theorem splitCRLF_drain_aux :
    ∀ (n : Nat) (buf : List Char), buf.length ≤ n →
      splitCRLF (drainBuffer buf).2 = none := by
  intro n
  induction n with
  | zero =>
    intro buf hb
    have : buf = [] := List.eq_nil_of_length_eq_zero (Nat.le_zero.mp hb)
    subst this
    rw [drainBuffer_of_none (by rfl)]
    rfl
  | succ n ih =>
    intro buf hb
    cases hsp : splitCRLF buf with
    | none => rw [drainBuffer_of_none hsp]; exact hsp
    | some p =>
      rw [drainBuffer_of_some hsp]
      exact ih p.2 (by have := splitCRLF_length_pair hsp; omega)

/-- The residual buffer after draining carries no complete delimiter. -/
theorem splitCRLF_drainBuffer (buf : List Char) :
    splitCRLF (drainBuffer buf).2 = none :=
  splitCRLF_drain_aux buf.length buf le_rfl

/-- Draining a concatenation: drain the first part, then continue with its
residue prepended to the second part; the extracted lines concatenate
(fuel-bounded form). -/
theorem drainBuffer_append_aux :
    ∀ (n : Nat) (x y : List Char), x.length ≤ n →
      drainBuffer (x ++ y) =
        ((drainBuffer x).1 ++ (drainBuffer ((drainBuffer x).2 ++ y)).1,
          (drainBuffer ((drainBuffer x).2 ++ y)).2) := by
  intro n
  induction n with
  | zero =>
    intro x y hx
    have : x = [] := List.eq_nil_of_length_eq_zero (Nat.le_zero.mp hx)
    subst this
    simp [@drainBuffer_of_none [] (by rfl)]
  | succ n ih =>
    intro x y hx
    cases hsp : splitCRLF x with
    | none => simp [drainBuffer_of_none hsp]
    | some p =>
      have hlen := splitCRLF_length_pair hsp
      rw [drainBuffer_of_some hsp,
        drainBuffer_of_some (@splitCRLF_append_pair x y p hsp),
        ih p.2 y (by omega)]
      simp

/-- Draining a concatenation: drain the first part, then continue with its
residue prepended to the second part; the extracted lines concatenate. -/
theorem drainBuffer_append (x y : List Char) :
    drainBuffer (x ++ y) =
      ((drainBuffer x).1 ++ (drainBuffer ((drainBuffer x).2 ++ y)).1,
        (drainBuffer ((drainBuffer x).2 ++ y)).2) :=
  drainBuffer_append_aux x.length x y le_rfl

/-- The central fold invariant: starting from a delimiter-free carried
buffer, feeding any chunk list equals draining the carried buffer plus the
concatenation of the chunks in one go. -/
theorem foldl_feedChunk (chunks : List (List Char)) (ls : List (List Char))
    (buf : List Char) (h : splitCRLF buf = none) :
    chunks.foldl feedChunk (ls, buf) =
      (ls ++ (drainBuffer (buf ++ chunks.flatten)).1,
        (drainBuffer (buf ++ chunks.flatten)).2) := by
  induction chunks generalizing ls buf with
  | nil => simp [drainBuffer_of_none h]
  | cons c cs ih =>
    rw [List.foldl_cons]
    show List.foldl feedChunk
      (ls ++ (drainBuffer (buf ++ c)).1, (drainBuffer (buf ++ c)).2) cs = _
    rw [ih _ _ (splitCRLF_drainBuffer (buf ++ c))]
    have hj : buf ++ (c :: cs).flatten = (buf ++ c) ++ cs.flatten := by
      simp
    rw [hj, drainBuffer_append (buf ++ c) cs.flatten]
    simp

/-! ## Claim theorems -/

theorem startsWithL_g_hasSub {s : List Char} (h : startsWithL s ['g'] = true) :
    hasSub s ['g'] = true := by
  cases s with
  | nil => rw [startsWithL] at h; cases h
  | cons d t => rw [hasSub]; simp [h]

theorem hasSub_g_of_kg {s : List Char} (h : hasSub s ['k', 'g'] = true) :
    hasSub s ['g'] = true := by
  induction s with
  | nil => rw [hasSub] at h; cases h
  | cons c rest ih =>
    rw [hasSub] at h
    rcases Bool.or_eq_true_iff.mp h with h1 | h2
    · rw [startsWithL] at h1
      have hg := (Bool.and_eq_true _ _).mp h1 |>.2
      rw [hasSub]
      simp [startsWithL_g_hasSub hg]
    · rw [hasSub]
      simp [ih h2]

/-- C10.  The reading extractor never reports kilograms: the unit
classification on line 404 tests `'g' in clean_data.lower()` first, and
every string containing `"kg"` contains `'g'`, so the `'kg'` branch is
unreachable - every extracted reading is grams (`"g"`) or unknown
(`"?"`). -/
theorem c10_never_kilograms (line : List Char) (w : PyDecimal) (u : String)
    (h : extractReading line = some (w, u)) : u = "g" ∨ u = "?" := by
  rw [extractReading] at h
  by_cases hc : cleanData line = []
  · rw [if_pos hc] at h; cases h
  · rw [if_neg hc] at h
    cases hf : findDecimal (cleanData line) with
    | none => rw [hf] at h; cases h
    | some m =>
      rw [hf] at h
      simp only [Option.some.injEq, Prod.mk.injEq] at h
      by_cases hg : hasSub ((cleanData line).map Char.toLower) ['g'] = true
      · left
        rw [← h.2, if_pos hg]
      · by_cases hkg : hasSub ((cleanData line).map Char.toLower) ['k', 'g'] = true
        · exact absurd (hasSub_g_of_kg hkg) hg
        · right
          rw [← h.2, if_neg hg, if_neg hkg]

/-- Witness for C10 at the concrete line `"1.5g"`. -/
theorem c10_never_kilograms_witness :
    extractReading (String.toList "1.5g") = some (⟨15, 1⟩, "g") ∧
      ("g" = "g" ∨ "g" = "?") :=
  ⟨by decide, c10_never_kilograms (String.toList "1.5g") ⟨15, 1⟩ "g" (by decide)⟩

/-- C1, counterexample to the claim as stated: on the line `"-1.200kg"`
the code extracts unit `"g"` (grams), not `"kg"` (kilograms) - the grams
test fires first because `"-1.200kg"` contains `'g'`. -/
theorem c1_counterexample :
    extractReading (String.toList "-1.200kg") = some (⟨-12, 1⟩, "g") ∧
      ("g" : String) ≠ "kg" :=
  ⟨by decide, by decide⟩

/-- C1 as amended: for the input line `"-1.200kg"` the reading extractor
yields weight `-1.2` (the exact value `-6/5`) and unit grams (`"g"`), not
kilograms. -/
theorem c1_extract_neg1200kg :
    extractReading (String.toList "-1.200kg") = some (⟨-12, 1⟩, "g") ∧
      PyDecimal.toRat ⟨-12, 1⟩ = -6 / 5 := by
  refine ⟨by decide, ?_⟩
  rw [PyDecimal.toRat]
  norm_num

/-- C3.  The code diverges from the claimed sanitisation: the character
class `[^\d\+-\.gk]` contains the range `\+-\.` = `'+'..'.'`, so `','`
survives sanitisation, while the uppercase `'G'` (which the claim keeps,
matching case-insensitively) is stripped.  `specSanitize` is the
sanitisation the claim describes. -/
theorem c3_code_divergence :
    cleanData [','] = [','] ∧ specSanitize [','] = [] ∧
      cleanData ['G'] = [] ∧ specSanitize ['G'] = ['G'] := by
  decide

/-- C8.  A line whose sanitised form is empty, or contains no substring
`[+-]?\d+\.\d+`, yields "no reading" (`none`), and `process_data` leaves
the ledger, the sample counter and the device label untouched (the early
`return`s on lines 398-402 fire before any mutation). -/
theorem c8_no_reading (line : List Char)
    (h : cleanData line = [] ∨ findDecimal (cleanData line) = none) :
    extractReading line = none ∧
      ∀ (st : St) (preset iid : String), processData preset iid line st = st := by
  have hex : extractReading line = none := by
    rw [extractReading]
    rcases h with h | h
    · rw [if_pos h]
    · by_cases hc : cleanData line = []
      · rw [if_pos hc]
      · rw [if_neg hc, h]
  refine ⟨hex, fun st preset iid => ?_⟩
  rw [processData, hex]

/-- Witness for C8 at the concrete line `"ERROR"` (all of whose characters
the sanitisation strips). -/
theorem c8_no_reading_witness :
    (cleanData (String.toList "ERROR") = [] ∨
      findDecimal (cleanData (String.toList "ERROR")) = none) ∧
      extractReading (String.toList "ERROR") = none ∧
      processData "Precisa 321 LX" "I001" (String.toList "ERROR")
        ⟨[⟨"Sample_1", ⟨15, 1⟩, "g", "Precisa 321 LX", "", "I000"⟩], 2,
          "Precisa 321 LX"⟩ =
        ⟨[⟨"Sample_1", ⟨15, 1⟩, "g", "Precisa 321 LX", "", "I000"⟩], 2,
          "Precisa 321 LX"⟩ := by
  have h := c8_no_reading (String.toList "ERROR") (Or.inl (by decide))
  exact ⟨Or.inl (by decide), h.1, h.2 _ "Precisa 321 LX" "I001"⟩

theorem processData_of_no_reading {line : List Char} {preset iid : String}
    {st : St} (h : extractReading line = none) :
    processData preset iid line st = st := by
  rw [processData, h]

theorem processData_sample_counter (preset iid : String) (line : List Char)
    (st : St) :
    (processData preset iid line st).sample_counter =
      st.sample_counter + (if (extractReading line).isSome then 1 else 0) := by
  rw [processData]
  cases h : extractReading line with
  | none => rfl
  | some p => obtain ⟨w, u⟩ := p; rfl

/-- C6.  Within one session, the `sample_id` values consumed by accepted
readings (the numbers embedded in the generated `sample_name`s) are the
consecutive run starting at the current counter - strictly increasing, no
gap, no repeat - and the counter advances by exactly the number of
accepted readings, so it never returns to 1 across appends alone; `clear`
(`reset_data`) empties the ledger, resets the counter to 1 and blanks the
device label. -/
theorem runAppends_ids (st : St) (ls : List LineInput) :
    (runAppends st ls).2 =
      List.range' st.sample_counter (acceptedCount ls) := by
  induction ls generalizing st with
  | nil => simp [runAppends, acceptedCount]
  | cons l t ih =>
    rw [runAppends]
    cases hx : extractReading l.text with
    | none =>
      have hcount : acceptedCount (l :: t) = acceptedCount t := by
        simp [acceptedCount, List.filter_cons, hx]
      simp only [hx, Option.isSome_none, Bool.false_eq_true, if_false, hcount,
        processData_of_no_reading hx]
      simpa using ih st
    | some p =>
      have hcount : acceptedCount (l :: t) = acceptedCount t + 1 := by
        simp [acceptedCount, List.filter_cons, hx]
      have hctr := processData_sample_counter l.preset l.iid l.text st
      rw [hx] at hctr
      simp only [Option.isSome_some, if_true] at hctr
      simp only [hx, Option.isSome_some, if_true, hcount]
      rw [ih (processData l.preset l.iid l.text st), hctr, List.range'_succ]
      rfl

theorem runAppends_counter (st : St) (ls : List LineInput) :
    (runAppends st ls).1.sample_counter =
      st.sample_counter + acceptedCount ls := by
  induction ls generalizing st with
  | nil => simp [runAppends, acceptedCount]
  | cons l t ih =>
    rw [runAppends]
    cases hx : extractReading l.text with
    | none =>
      have hcount : acceptedCount (l :: t) = acceptedCount t := by
        simp [acceptedCount, List.filter_cons, hx]
      simp only [hcount, processData_of_no_reading hx]
      exact ih st
    | some p =>
      have hcount : acceptedCount (l :: t) = acceptedCount t + 1 := by
        simp [acceptedCount, List.filter_cons, hx]
      have hctr := processData_sample_counter l.preset l.iid l.text st
      rw [hx] at hctr
      simp only [Option.isSome_some, if_true] at hctr
      simp only [hcount]
      rw [ih (processData l.preset l.iid l.text st), hctr]
      omega

/-- C6.  Within one session, the `sample_id` values consumed by accepted
readings (the numbers embedded in the generated `sample_name`s) are the
consecutive run starting at the current counter - strictly increasing, no
gap, no repeat - and the counter advances by exactly the number of
accepted readings, so it never returns to 1 across appends alone; `clear`
(`reset_data`) empties the ledger, resets the counter to 1 and blanks the
device label. -/
theorem c6_sample_ids (st : St) (ls : List LineInput) :
    (runAppends st ls).2 =
        List.range' st.sample_counter (acceptedCount ls) ∧
      (runAppends st ls).1.sample_counter =
        st.sample_counter + acceptedCount ls ∧
      ∀ st' : St, resetData st' = ⟨[], 1, ""⟩ :=
  ⟨runAppends_ids st ls, runAppends_counter st ls, fun _ => rfl⟩

/-- C7.  When a line carries a reading, `process_data` appends exactly one
measurement at the end of the ledger: its `sample_name` is `"Sample_"`
followed by the assigned id, its device label is the supplied (preset)
label, falling back to the last remembered `device_name` and then to the
literal `"Unknown"`, its comment is empty, and the operation is total (the
success path raises nothing). -/
theorem c7_append_postcondition (preset iid : String) (line : List Char)
    (st : St) (w : PyDecimal) (u : String)
    (h : extractReading line = some (w, u)) :
    processData preset iid line st =
      { data := st.data ++
          [⟨"Sample_" ++ toString st.sample_counter, w, u,
            (if preset ≠ "" then preset
              else if st.device_name ≠ "" then st.device_name else "Unknown"),
            "", iid⟩],
        sample_counter := st.sample_counter + 1,
        device_name := if preset ≠ "" then preset
          else if st.device_name ≠ "" then st.device_name else "Unknown" } := by
  rw [processData, h]

/-- Witness for C7: an empty preset and no remembered label fall back to
`"Unknown"`, and the measurement lands at the end with an empty comment. -/
theorem c7_append_postcondition_witness :
    extractReading (String.toList "1.5g") = some (⟨15, 1⟩, "g") ∧
      processData "" "I001" (String.toList "1.5g") ⟨[], 1, ""⟩ =
        ⟨[⟨"Sample_1", ⟨15, 1⟩, "g", "Unknown", "", "I001"⟩], 2, "Unknown"⟩ := by
  refine ⟨by decide, ?_⟩
  rw [c7_append_postcondition "" "I001" (String.toList "1.5g") ⟨[], 1, ""⟩
    ⟨15, 1⟩ "g" (by decide)]
  decide

theorem updateByKey_not_found {data : List Meas} {key : String}
    {f : EditField} {v : String} (h : ∀ m ∈ data, m.iid ≠ key) :
    updateByKey data key f v = data := by
  induction data with
  | nil => rfl
  | cons m rest ih =>
    rw [updateByKey, if_neg (h m (by simp)), ih fun x hx => h x (by simp [hx])]

theorem updateByKey_first {pre : List Meas} {m : Meas} {post : List Meas}
    {key : String} {f : EditField} {v : String} (hm : m.iid = key)
    (hpre : ∀ x ∈ pre, x.iid ≠ key) :
    updateByKey (pre ++ m :: post) key f v = pre ++ setField f v m :: post := by
  induction pre with
  | nil => simp [updateByKey, hm]
  | cons a t ih =>
    rw [List.cons_append, updateByKey, if_neg (hpre a (by simp)),
      ih fun x hx => hpre x (by simp [hx])]
    rfl

/-- C9.  `update(key, field, value)` (the `save_edit` closure): when no
row carries the key the ledger is untouched and nothing is raised; when a
row does, only the addressed field of the first such row changes - its
other fields, the rows before it and the rows after it are all
unchanged. -/
theorem c9_update_by_key (data : List Meas) (key : String) (f : EditField)
    (v : String) :
    ((∀ m ∈ data, m.iid ≠ key) → updateByKey data key f v = data) ∧
      ∀ pre (m : Meas) post, data = pre ++ m :: post → m.iid = key →
        (∀ x ∈ pre, x.iid ≠ key) →
        updateByKey data key f v = pre ++ setField f v m :: post ∧
          (setField f v m).weight = m.weight ∧
          (setField f v m).unit = m.unit ∧
          (setField f v m).device = m.device ∧
          (setField f v m).iid = m.iid ∧
          (f = .sampleName → (setField f v m).sample_name = v ∧
            (setField f v m).comments = m.comments) ∧
          (f = .commentsField → (setField f v m).comments = v ∧
            (setField f v m).sample_name = m.sample_name) := by
  refine ⟨updateByKey_not_found, ?_⟩
  rintro pre m post rfl hm hpre
  refine ⟨updateByKey_first hm hpre, ?_, ?_, ?_, ?_, ?_, ?_⟩ <;>
    cases f <;> simp [setField]

theorem decodeMeas_encodeMeas (m : Meas) : decodeMeas (encodeMeas m) = some m := by
  rfl

theorem decodeMeasList_map (ms : List Meas) :
    decodeMeasList (ms.map encodeMeas) = some ms := by
  induction ms with
  | nil => rfl
  | cons m t ih => simp [decodeMeasList, decodeMeas_encodeMeas, ih]

/-- C5.  Checkpoint round-trip: `save_temp_data` followed by the restore
branch of `load_temp_data` reproduces the ledger rows (same order, same
field values), the `sample_counter` and the `device_name`. -/
theorem c5_checkpoint_roundtrip (st : St) :
    loadTempData (saveTempData st) = some st := by
  rw [saveTempData, loadTempData]
  simp only [jlookup, reduceIte, Option.getD_some, decodeMeasArr,
    decodeMeasList_map, decodeCounter, decodeStr, Option.some_bind]
  simp [Int.not_lt.mpr (Int.natCast_nonneg st.sample_counter)]

/-- C2, counterexample to the claim as stated: `save_data` hands the float
`row["weight"]` itself to `csv.writer`, which renders it with `str`, so a
stored `-1.2` is exported as `"-1.2"`, not as the three-decimal `"-1.200"`
that the on-screen table (`f"{weight:.3f}"`) uses. -/
theorem c2_counterexample :
    saveData "2026-10-12 00:00:00"
        [⟨"Sample_1", ⟨-12, 1⟩, "g", "Precisa 321 LX", "", "I001"⟩] =
      some [["Exported: 2026-10-12 00:00:00"],
        ["Sample Name", "Weight", "Units", "Device", "Comments"],
        ["Sample_1", "-1.2", "g", "Precisa 321 LX", ""]] ∧
      formatWeight3 ⟨-12, 1⟩ = "-1.200" ∧ ("-1.2" : String) ≠ "-1.200" := by
  refine ⟨?_, by decide, by decide⟩
  rw [saveData]
  decide

theorem exportRows_eq_map (data : List Meas) :
    exportRows data = data.map exportRow := by
  induction data with
  | nil => rfl
  | cons m t ih => rw [exportRows, List.map_cons, ih]

/-- C2 as amended: exporting a non-empty ledger appends a timestamp row
and a header row followed by exactly one row per measurement, in insertion
order, whose weight field is Python's default (`str`) rendering of the
stored float - not the three-decimal form, which the code reserves for the
on-screen table. -/
theorem c2_export_rows (t : String) (data : List Meas) (h : data ≠ []) :
    saveData t data =
      some (["Exported: " ++ t] ::
        ["Sample Name", "Weight", "Units", "Device", "Comments"] ::
        data.map exportRow) ∧
      ∀ m ∈ data, exportRow m =
        [m.sample_name, pyFloatStr m.weight, m.unit, m.device, m.comments] := by
  refine ⟨?_, fun m _ => rfl⟩
  rw [saveData, if_neg (by simpa using h), exportRows_eq_map]

/-- Witness for C2's amended theorem on a concrete one-row ledger. -/
theorem c2_export_rows_witness :
    ([⟨"Sample_1", ⟨-12, 1⟩, "g", "Dev", "", "I001"⟩] : List Meas) ≠ [] ∧
      saveData "ts" [⟨"Sample_1", ⟨-12, 1⟩, "g", "Dev", "", "I001"⟩] =
        some [["Exported: ts"],
          ["Sample Name", "Weight", "Units", "Device", "Comments"],
          ["Sample_1", "-1.2", "g", "Dev", ""]] := by
  have h := c2_export_rows "ts"
    [⟨"Sample_1", ⟨-12, 1⟩, "g", "Dev", "", "I001"⟩] (by decide)
  refine ⟨by decide, ?_⟩
  rw [h.1]
  decide

/-- C4.  Chunking-invariance of frame reassembly: for every byte sequence
and every partition of it into chunks, the buffer-append-then-split loop
of the read loops yields the same delimiter-bounded lines in the same
order as one single delivery, and the same residual buffer (the bytes
after the last delimiter). -/
theorem c4_chunking_invariant (chunks : List (List Nat)) :
    feedBytes chunks = drainBuffer (decodeChunk chunks.flatten) := by
  rw [feedBytes, foldl_feedChunk _ _ _ (by rfl)]
  have hdec : (chunks.map decodeChunk).flatten = decodeChunk chunks.flatten := by
    induction chunks with
    | nil => rfl
    | cons c cs ih => simp [decodeChunk, ih]
  rw [hdec]
  simp

end Scale321LX
